import Mathlib

/-!
Verification development for the availability scheduling engine of the
SchedulingAssistant repository (src/services/scheduling.ts, class
SchedulingService), together with the data model it uses
(src/types/index.ts).

Shallow embedding conventions:
* JavaScript `Date` values are modelled as `Int` milliseconds since the epoch,
  in a fixed-offset timezone (no DST): `setHours(0,0,0,0)` becomes flooring to
  a multiple of `msPerDay`, `getDay()` becomes `dayOfWeek` (the epoch,
  1970-01-01, is a Thursday, weekday index 4), `getHours()` becomes
  `hourOfDay`.  `Math.floor` of a division by a positive constant is `Int`
  division (`/` on `Int` rounds toward negative infinity for positive
  divisors).
* The two `while` loops of `generatePossibleSlots` are modelled by
  fuel-indexed recursion (`generateDays`, `generateDaySlots`); every theorem
  quantified over slots holds for every fuel value, and concrete scenarios use
  a fuel that is large enough for the loop to run to completion.
* `new Date()` (the current instant) is passed explicitly as a `now : Int`
  argument.
* The TypeScript field `end` is called `stop` here (`end` is a Lean keyword);
  optional fields become `Option`.
* The JavaScript expression `x || d` on numbers (which yields `d` when `x` is
  `0`, because `0` is falsy) is modelled by `jsOrNum`.
-/

/-- Milliseconds per minute (`60 * 1000` in the source). -/
def msPerMinute : Int := 60000

/-- Milliseconds per hour. -/
def msPerHour : Int := 3600000

/-- Milliseconds per day (`1000 * 60 * 60 * 24` in the source). -/
def msPerDay : Int := 86400000

/-- Model of `Date.setHours(0,0,0,0)`: floor the instant to midnight. -/
def midnightOf (t : Int) : Int := (t / msPerDay) * msPerDay

/-- Model of `Date.getDay()`: weekday index, 0 = Sunday .. 6 = Saturday.
The epoch day (1970-01-01) is a Thursday, hence the offset 4. -/
def dayOfWeek (t : Int) : Int := (t / msPerDay + 4) % 7

/-- Model of `Date.getHours()`: hour of the day, 0..23. -/
def hourOfDay (t : Int) : Int := (t % msPerDay) / msPerHour

/-- Model of `Date.setHours(h, m, 0, 0)` relative to a day base: offset of the
time of day `h:m` in milliseconds (JavaScript rolls over out-of-range values,
which plain arithmetic reproduces). -/
def hmToMs (h m : Int) : Int := h * msPerHour + m * msPerMinute

/-- `TimeSlot` from src/types/index.ts: `{ start: Date; end: Date;
available: boolean; score?: number }`.  `stop` models the `end` field. -/
structure TimeSlot where
  start : Int
  stop : Int
  available : Bool
  score : Option Int
deriving DecidableEq

/-- A busy interval as returned by the busy-time source:
`{ start: Date; end: Date }`.  `stop` models the `end` field. -/
structure BusyInterval where
  start : Int
  stop : Int
deriving DecidableEq

/-- `DateRange` from src/types/index.ts: `{ start: Date; end: Date }`. -/
structure DateRange where
  start : Int
  stop : Int
deriving DecidableEq

/-- The shape of `SchedulingService.defaultBusinessHours` and of the optional
`preferredTimes` preference: a start time of day, an end time of day (both
given in the source as "HH:mm" strings, modelled here already parsed into
hour and minute, exactly what `split(':').map(Number)` produces), and a list
of weekday indices. -/
structure BusinessHoursSpec where
  startHour : Int
  startMinute : Int
  endHour : Int
  endMinute : Int
  daysOfWeek : List Int
deriving DecidableEq

/-- A time of day as kept in `SchedulingPreferences.workingHours`
("HH:mm" strings in the source, modelled parsed). -/
structure HmTime where
  hour : Int
  minute : Int
deriving DecidableEq

/-- `SchedulingPreferences` from src/types/index.ts.  The `timezone` string is
omitted: the whole model lives in one fixed-offset timezone. -/
structure SchedulingPreferences where
  workingHoursStart : HmTime
  workingHoursEnd : HmTime
  workingDays : List Int
  bufferMinutes : Int
  preferredTimes : Option BusinessHoursSpec
  preferredDays : Option (List Int)
deriving DecidableEq

/-- `SchedulingService.defaultBusinessHours`:
`{ start: '09:00', end: '21:00', daysOfWeek: [0,1,2,3,4,5,6] }`. -/
def defaultBusinessHours : BusinessHoursSpec :=
  { startHour := 9, startMinute := 0, endHour := 21, endMinute := 0,
    daysOfWeek := [0, 1, 2, 3, 4, 5, 6] }

/-- `SchedulingService.defaultBufferTime = 15`. -/
def defaultBufferTime : Int := 15

/-- JavaScript `x || d` for numbers: `0` is falsy, every other integer is
truthy. -/
def jsOrNum (x d : Int) : Int := if x = 0 then d else x

/-- `preferences?.bufferMinutes || this.defaultBufferTime` from
`findAvailableSlots`. -/
def bufferOf (preferences : Option SchedulingPreferences) : Int :=
  match preferences with
  | some p => jsOrNum p.bufferMinutes defaultBufferTime
  | none => defaultBufferTime

/-- `preferences?.preferredTimes || this.defaultBusinessHours` from
`findAvailableSlots` (an object is always truthy, so only a missing
`preferredTimes` falls back to the default). -/
def businessHoursOf (preferences : Option SchedulingPreferences) : BusinessHoursSpec :=
  match preferences with
  | some p => p.preferredTimes.getD defaultBusinessHours
  | none => defaultBusinessHours

/-- Inner `while` loop of `SchedulingService.generatePossibleSlots`: starting
at `slotStart`, while `slotStart + duration*60*1000 <= dayEnd`, emit the slot
`[slotStart, slotStart + duration*60*1000]` marked available, then advance
`slotStart` by `slotDuration` minutes.  `fuel` bounds the number of
iterations. -/
def generateDaySlots : Nat → Int → Int → Int → Int → List TimeSlot
  | 0, _, _, _, _ => []
  | Nat.succ f, slotStart, dayEnd, duration, slotDuration =>
    if slotStart + duration * msPerMinute ≤ dayEnd then
      { start := slotStart, stop := slotStart + duration * msPerMinute,
        available := true, score := none } ::
        generateDaySlots f (slotStart + slotDuration * msPerMinute) dayEnd duration slotDuration
    else []

/-- Outer `while` loop of `SchedulingService.generatePossibleSlots`: while
`currentDate <= dateRange.end`, if the weekday of `currentDate` is in
`businessHours.daysOfWeek`, emit that day's slots between the parsed business
start and end times, then move `currentDate` one day forward. -/
def generateDays : Nat → Int → Int → Int → Int → BusinessHoursSpec → List TimeSlot
  | 0, _, _, _, _, _ => []
  | Nat.succ f, currentDate, rangeEnd, duration, slotDuration, bh =>
    if currentDate ≤ rangeEnd then
      (if bh.daysOfWeek.contains (dayOfWeek currentDate) then
        generateDaySlots (Nat.succ f) (currentDate + hmToMs bh.startHour bh.startMinute)
          (currentDate + hmToMs bh.endHour bh.endMinute) duration slotDuration
      else []) ++ generateDays f (currentDate + msPerDay) rangeEnd duration slotDuration bh
    else []

/-- `SchedulingService.generatePossibleSlots`: `slotDuration = duration +
bufferTime` (the slot pitch); the day cursor starts at `dateRange.start`
truncated to midnight. -/
def generatePossibleSlots (fuel : Nat) (dateRange : DateRange)
    (duration bufferTime : Int) (businessHours : BusinessHoursSpec) : List TimeSlot :=
  generateDays fuel (midnightOf dateRange.start) dateRange.stop
    duration (duration + bufferTime) businessHours

/-- Modelled from the spec: the busy-time source (`GoogleCalendarService.
getFreeBusy`, whose filtering happens inside the remote calendar API, not in
this repository's code) returns, for a calendar and a query range, the busy
intervals on that calendar that overlap the queried range.  A calendar is
modelled as the list of all its busy intervals. -/
def getFreeBusy (cal : List BusyInterval) (timeMin timeMax : Int) : List BusyInterval :=
  cal.filter fun b => decide (b.start < timeMax) && decide (timeMin < b.stop)

/-- `SchedulingService.isSlotBusy`: expand the slot by `bufferTime` minutes on
both sides and test the three overlap conditions of the source against every
busy interval. -/
def isSlotBusy (slot : TimeSlot) (busyTimes : List BusyInterval) (bufferTime : Int) : Bool :=
  let slotStartWithBuffer := slot.start - bufferTime * msPerMinute
  let slotEndWithBuffer := slot.stop + bufferTime * msPerMinute
  busyTimes.any fun busy =>
    (decide (busy.start ≤ slotStartWithBuffer) && decide (slotStartWithBuffer < busy.stop)) ||
    (decide (busy.start < slotEndWithBuffer) && decide (slotEndWithBuffer ≤ busy.stop)) ||
    (decide (slotStartWithBuffer ≤ busy.start) && decide (busy.stop ≤ slotEndWithBuffer))

/-- `SchedulingService.findAvailableSlots`: resolve the buffer and business
hours from the preferences, fetch the busy intervals for the date range,
generate all candidate slots, and keep those that are not busy. -/
def findAvailableSlots (fuel : Nat) (cal : List BusyInterval) (duration : Int)
    (dateRange : DateRange) (preferences : Option SchedulingPreferences) : List TimeSlot :=
  let bufferTime := bufferOf preferences
  let businessHours := businessHoursOf preferences
  let busyTimes := getFreeBusy cal dateRange.start dateRange.stop
  let allSlots := generatePossibleSlots fuel dateRange duration bufferTime businessHours
  allSlots.filter fun slot => ! isSlotBusy slot busyTimes bufferTime

/-- `SchedulingService.calculateSlotScore`: base 100; +30 for weekday
evenings (hour in [18,20), day 1..5); +25 for Sunday afternoon (hour in
[14,17)); -20 for hour < 10 or hour >= 20; -2 per floored day between `now`
and the slot start; +20 when `preferredDays` is present and contains the
slot's weekday; clamped below at 0. -/
def calculateSlotScore (slot : TimeSlot) (now : Int)
    (preferences : Option SchedulingPreferences) : Int :=
  let slotHour := hourOfDay slot.start
  let slotDay := dayOfWeek slot.start
  let score : Int := 100
  let score := if 18 ≤ slotHour ∧ slotHour < 20 ∧ 1 ≤ slotDay ∧ slotDay ≤ 5 then
    score + 30 else score
  let score := if slotDay = 0 ∧ 14 ≤ slotHour ∧ slotHour < 17 then score + 25 else score
  let score := if slotHour < 10 ∨ 20 ≤ slotHour then score - 20 else score
  let daysFromNow := (slot.start - now) / msPerDay
  let score := score - daysFromNow * 2
  let score := match preferences with
    | some p =>
      match p.preferredDays with
      | some ds => if ds.contains slotDay then score + 20 else score
      | none => score
    | none => score
  max 0 score

/-- The score the sort comparator reads (`b.score - a.score`); every slot fed
to the sort carries a `some` score. -/
def scoreValue (slot : TimeSlot) : Int := slot.score.getD 0

/-- One step of the stable descending-by-score sort: insert `x` after every
already-placed element whose score is at least `scoreValue x`. -/
def insertByScore (x : TimeSlot) : List TimeSlot → List TimeSlot
  | [] => [x]
  | y :: ys =>
    if scoreValue y < scoreValue x then x :: y :: ys
    else y :: insertByScore x ys

/-- Model of JavaScript `Array.prototype.sort` with comparator
`(a, b) => b.score - a.score`: a stable sort, descending by score (stable
sorting by a total preorder determines the output list uniquely, so any
stable implementation is a faithful model; insertion from the left is
used here). -/
def sortByScoreDesc (l : List TimeSlot) : List TimeSlot :=
  l.foldl (fun acc x => insertByScore x acc) []

/-- `SchedulingService.suggestOptimalTimes`: the date range defaults to `now`
through `now + 14` days, candidates come from `findAvailableSlots`, each gets
a score, the list is sorted descending by score, truncated to 10, and the
score field is stripped (`({ score, ...slot }) => slot`). -/
def suggestOptimalTimes (fuel : Nat) (cal : List BusyInterval) (now duration : Int)
    (preferences : Option SchedulingPreferences) : List TimeSlot :=
  let dateRange : DateRange := { start := now, stop := now + 14 * msPerDay }
  let availableSlots := findAvailableSlots fuel cal duration dateRange preferences
  let scoredSlots := availableSlots.map fun slot =>
    { slot with score := some (calculateSlotScore slot now preferences) }
  ((sortByScoreDesc scoredSlots).take 10).map fun slot => { slot with score := none }

/-- `SchedulingService.isSlotAvailable`: compute `end = start + duration`,
expand by the buffer on both sides, query the busy-time source for exactly
that window, and succeed only when no busy interval comes back. -/
def isSlotAvailable (cal : List BusyInterval) (start duration bufferTime : Int) : Bool :=
  let stop := start + duration * msPerMinute
  let checkStart := start - bufferTime * msPerMinute
  let checkEnd := stop + bufferTime * msPerMinute
  (getFreeBusy cal checkStart checkEnd).length == 0

/-- `SchedulingService.getNextAvailableSlot`: search `now` through `now + 30`
days via `findAvailableSlots` and return the first slot, if any
(`slots.length > 0 ? slots[0] : null`). -/
def getNextAvailableSlot (fuel : Nat) (cal : List BusyInterval) (now duration : Int)
    (preferences : Option SchedulingPreferences) : Option TimeSlot :=
  (findAvailableSlots fuel cal duration
    { start := now, stop := now + 30 * msPerDay } preferences).head?

/-- The error taxonomy named by the spec (section 7). -/
inductive SchedulingError where
  | calendarLookupError
  | invalidRangeError
deriving DecidableEq

/-- `findAvailableSlots` with its exception channel made explicit.  The source
performs no validation of the date range or duration, and with the busy-time
source modelled as data no throw site remains, so the operation always
returns `ok`. -/
def findAvailableSlotsE (fuel : Nat) (cal : List BusyInterval) (duration : Int)
    (dateRange : DateRange) (preferences : Option SchedulingPreferences) :
    Except SchedulingError (List TimeSlot) :=
  Except.ok (findAvailableSlots fuel cal duration dateRange preferences)

/-- `suggestOptimalTimes` with its exception channel made explicit; the source
performs no validation, so the operation always returns `ok`. -/
def suggestOptimalTimesE (fuel : Nat) (cal : List BusyInterval) (now duration : Int)
    (preferences : Option SchedulingPreferences) :
    Except SchedulingError (List TimeSlot) :=
  Except.ok (suggestOptimalTimes fuel cal now duration preferences)

/-- `isSlotAvailable` with its exception channel made explicit; the source
performs no validation, so the operation always returns `ok`. -/
def isSlotAvailableE (cal : List BusyInterval) (start duration bufferTime : Int) :
    Except SchedulingError Bool :=
  Except.ok (isSlotAvailable cal start duration bufferTime)

/-- `getNextAvailableSlot` with its exception channel made explicit; the
source performs no validation, so the operation always returns `ok`. -/
def getNextAvailableSlotE (fuel : Nat) (cal : List BusyInterval) (now duration : Int)
    (preferences : Option SchedulingPreferences) :
    Except SchedulingError (Option TimeSlot) :=
  Except.ok (getNextAvailableSlot fuel cal now duration preferences)

/-- Nonempty intersection of the closed-open intervals `[s, e)` and
`[b.start, b.stop)`: the overlap notion of the claims. -/
def overlapsInterval (s e : Int) (b : BusyInterval) : Prop :=
  s < b.stop ∧ b.start < e

instance (s e : Int) (b : BusyInterval) : Decidable (overlapsInterval s e b) := by
  unfold overlapsInterval; infer_instance

/-- The buffer-expanded window of a slot, as a pair (start, end). -/
def expandedWindow (slot : TimeSlot) (bufferTime : Int) : Int × Int :=
  (slot.start - bufferTime * msPerMinute, slot.stop + bufferTime * msPerMinute)

/-- Formalisation of the spec's scoring formula, written the way the claim
states it: 100, plus 30 for a Monday-Friday slot starting in hour [18,20),
plus 25 for a Sunday slot starting in hour [14,17), minus 20 when the start
hour is before 10 or at/after 20, minus 2 for each full day between now and
the slot's start, plus 20 when `preferredDays` is present and contains the
slot's weekday, clamped below at 0. -/
def specSlotScore (slot : TimeSlot) (now : Int)
    (preferences : Option SchedulingPreferences) : Int :=
  let h := hourOfDay slot.start
  let d := dayOfWeek slot.start
  let weekdayEveningBonus : Int := if 1 ≤ d ∧ d ≤ 5 ∧ 18 ≤ h ∧ h < 20 then 30 else 0
  let sundayAfternoonBonus : Int := if d = 0 ∧ 14 ≤ h ∧ h < 17 then 25 else 0
  let offHoursPenalty : Int := if h < 10 ∨ 20 ≤ h then 20 else 0
  let fullDaysBetween := (slot.start - now) / msPerDay
  let preferredDayBonus : Int :=
    match preferences with
    | some p =>
      match p.preferredDays with
      | some ds => if ds.contains d then 20 else 0
      | none => 0
    | none => 0
  max 0 (100 + weekdayEveningBonus + sundayAfternoonBonus - offHoursPenalty
    - 2 * fullDaysBetween + preferredDayBonus)

/-- Ranking order of the sorted output of `suggestOptimalTimes`: descending
score, with equal scores kept in chronological order (the stability of the
sort). -/
def rankedLE (a b : TimeSlot) : Prop :=
  scoreValue b ≤ scoreValue a ∧ (scoreValue a = scoreValue b → a.start ≤ b.start)

/-! ### Concrete instants and scenario inputs

1970-01-05 is the first Monday after the epoch (`dayOfWeek` 1), 1970-01-04
the first Sunday (`dayOfWeek` 0). -/

/-- Midnight of Monday 1970-01-05, in milliseconds. -/
def monday0 : Int := 4 * msPerDay

/-- Midnight of Sunday 1970-01-04, in milliseconds. -/
def sunday0 : Int := 3 * msPerDay

/-- Minutes to milliseconds, for writing concrete instants. -/
def mins (m : Int) : Int := m * msPerMinute

/-- Scenario A preferences: working hours 09:00-17:00 on Monday-Friday
(supplied both through the `workingHours`/`workingDays` fields and through
`preferredTimes`, which is the field the engine reads) and an explicit
`bufferMinutes` of 0. -/
def prefsScenarioA : SchedulingPreferences :=
  { workingHoursStart := ⟨9, 0⟩, workingHoursEnd := ⟨17, 0⟩,
    workingDays := [1, 2, 3, 4, 5], bufferMinutes := 0,
    preferredTimes := some ⟨9, 0, 17, 0, [1, 2, 3, 4, 5]⟩, preferredDays := none }

/-- Scenario A busy calendar: one busy interval 09:00-09:15 on the Monday. -/
def calScenarioA : List BusyInterval := [⟨monday0 + mins 540, monday0 + mins 555⟩]

/-- Scenario A date range: the whole Monday. -/
def rangeScenarioA : DateRange := ⟨monday0, monday0 + mins 1439⟩

/-- Preferences whose `workingDays`/`workingHours` restrict to Mondays
09:00-10:00 but which leave `preferredTimes` unset, so the engine falls back
to its defaults (09:00-21:00, all seven days). -/
def prefsWorkingOnly : SchedulingPreferences :=
  { workingHoursStart := ⟨9, 0⟩, workingHoursEnd := ⟨10, 0⟩,
    workingDays := [1], bufferMinutes := 15,
    preferredTimes := none, preferredDays := none }

/-- A date range covering exactly the Sunday 1970-01-04. -/
def rangeSunday : DateRange := ⟨sunday0, sunday0 + mins 1439⟩

/-- Preferences reading 09:00-17:00 on Mondays with a 45-minute buffer. -/
def prefsMonday : SchedulingPreferences :=
  { workingHoursStart := ⟨9, 0⟩, workingHoursEnd := ⟨17, 0⟩,
    workingDays := [1], bufferMinutes := 45,
    preferredTimes := some ⟨9, 0, 17, 0, [1]⟩, preferredDays := none }

/-- One busy interval 08:00-08:30 on the Monday: it lies before the 10:00
start of `rangeMondayMidday`, so the range-wide busy fetch never sees it. -/
def calEarlyBusy : List BusyInterval := [⟨monday0 + mins 480, monday0 + mins 510⟩]

/-- A date range starting mid-day (Monday 10:00) and ending at 17:00. -/
def rangeMondayMidday : DateRange := ⟨monday0 + mins 600, monday0 + mins 1020⟩

/-- A date range starting mid-day (Monday 10:00) and ending at 16:10,
before the 17:00 close of `prefsMonday`. -/
def rangeMondayShort : DateRange := ⟨monday0 + mins 600, monday0 + mins 970⟩

/-- The whole Monday, used as a range that contains every buffer-expanded
slot window of the 09:00-17:00 working window with a 45-minute buffer. -/
def rangeMondayFull : DateRange := ⟨monday0, monday0 + mins 1439⟩

/-- Preferences with a tiny working window (09:00-09:30, Mondays only), so
that every generated slot survives the top-10 truncation of
`suggestOptimalTimes`. -/
def prefsTinyWindow : SchedulingPreferences :=
  { workingHoursStart := ⟨9, 0⟩, workingHoursEnd := ⟨9, 30⟩,
    workingDays := [1], bufferMinutes := 15,
    preferredTimes := some ⟨9, 0, 9, 30, [1]⟩, preferredDays := none }

/-- A current instant of Monday 10:00, after the tiny working window. -/
def nowMonday10 : Int := monday0 + mins 600

/-- A date range whose start lies after its end (Monday 10:00 down to
Monday 05:00). -/
def rangeBackwards : DateRange := ⟨monday0 + mins 600, monday0 + mins 300⟩

/-! ### Lemmas about slot generation -/

/-- Every slot emitted by the inner loop spans exactly `duration` minutes, is
marked available and unscored, and ends no later than the day's close. -/
theorem mem_generateDaySlots {slot : TimeSlot} :
    ∀ {f : Nat} {s dayEnd dur pitch : Int}, slot ∈ generateDaySlots f s dayEnd dur pitch →
    slot.stop = slot.start + dur * msPerMinute ∧ slot.available = true ∧
    slot.score = none ∧ slot.start + dur * msPerMinute ≤ dayEnd := by
  intro f
  induction f with
  | zero => intro s dayEnd dur pitch h; simp [generateDaySlots] at h
  | succ f ih =>
    intro s dayEnd dur pitch h
    simp only [generateDaySlots] at h
    by_cases hc : s + dur * msPerMinute ≤ dayEnd
    · rw [if_pos hc] at h
      rcases List.mem_cons.mp h with rfl | hmem
      · exact ⟨rfl, rfl, rfl, hc⟩
      · exact ih hmem
    · rw [if_neg hc] at h
      simp at h

/-- With a non-negative pitch the inner loop never emits a slot before its
starting cursor. -/
theorem mem_generateDaySlots_lb {slot : TimeSlot} :
    ∀ {f : Nat} {s dayEnd dur pitch : Int}, 0 ≤ pitch →
    slot ∈ generateDaySlots f s dayEnd dur pitch → s ≤ slot.start := by
  intro f
  induction f with
  | zero => intro s dayEnd dur pitch _ h; simp [generateDaySlots] at h
  | succ f ih =>
    intro s dayEnd dur pitch hp h
    simp only [generateDaySlots] at h
    by_cases hc : s + dur * msPerMinute ≤ dayEnd
    · rw [if_pos hc] at h
      rcases List.mem_cons.mp h with rfl | hmem
      · exact le_refl _
      · have h1 := ih hp hmem
        have h2 : 0 ≤ pitch * msPerMinute :=
          mul_nonneg hp (by norm_num [msPerMinute])
        linarith
    · rw [if_neg hc] at h
      simp at h

/-- The inner loop emits slots in chronological order. -/
theorem pairwise_generateDaySlots :
    ∀ {f : Nat} {s dayEnd dur pitch : Int}, 0 ≤ pitch →
    List.Pairwise (fun a b : TimeSlot => a.start ≤ b.start)
      (generateDaySlots f s dayEnd dur pitch) := by
  intro f
  induction f with
  | zero => intro s dayEnd dur pitch _; simp [generateDaySlots]
  | succ f ih =>
    intro s dayEnd dur pitch hp
    simp only [generateDaySlots]
    by_cases hc : s + dur * msPerMinute ≤ dayEnd
    · rw [if_pos hc]
      refine List.Pairwise.cons ?_ (ih hp)
      intro b hb
      have h1 := mem_generateDaySlots_lb hp hb
      have h2 : 0 ≤ pitch * msPerMinute :=
        mul_nonneg hp (by norm_num [msPerMinute])
      show s ≤ b.start
      linarith
    · rw [if_neg hc]; simp

/-- Every slot of the day loop comes from some emitted day: a day at a whole
number of days past the cursor, not past the range end, whose weekday is one
of the business days; inside that day the slot comes from the inner loop run
between the parsed business open and close instants. -/
theorem mem_generateDays {slot : TimeSlot} :
    ∀ {f : Nat} {cur rangeEnd dur pitch : Int} {bh : BusinessHoursSpec},
    slot ∈ generateDays f cur rangeEnd dur pitch bh →
    ∃ day : Int, (∃ k : Nat, day = cur + (k : Int) * msPerDay) ∧ day ≤ rangeEnd ∧
      bh.daysOfWeek.contains (dayOfWeek day) = true ∧
      ∃ f2 : Nat, slot ∈ generateDaySlots f2 (day + hmToMs bh.startHour bh.startMinute)
        (day + hmToMs bh.endHour bh.endMinute) dur pitch := by
  intro f
  induction f with
  | zero => intro cur rangeEnd dur pitch bh h; simp [generateDays] at h
  | succ f ih =>
    intro cur rangeEnd dur pitch bh h
    simp only [generateDays] at h
    by_cases hcur : cur ≤ rangeEnd
    · rw [if_pos hcur] at h
      rcases List.mem_append.mp h with hday | hrec
      · by_cases hct : bh.daysOfWeek.contains (dayOfWeek cur) = true
        · rw [if_pos hct] at hday
          exact ⟨cur, ⟨0, by simp⟩, hcur, hct, Nat.succ f, hday⟩
        · rw [if_neg hct] at hday
          simp at hday
      · rcases ih hrec with ⟨day, ⟨k, hk⟩, hle, hct, f2, hmem⟩
        refine ⟨day, ⟨k + 1, ?_⟩, hle, hct, f2, hmem⟩
        rw [hk]; push_cast; ring
    · rw [if_neg hcur] at h
      simp at h

/-- With a non-negative pitch and a non-negative opening offset, no slot of
the day loop starts before the day cursor. -/
theorem mem_generateDays_lb {slot : TimeSlot} :
    ∀ {f : Nat} {cur rangeEnd dur pitch : Int} {bh : BusinessHoursSpec},
    0 ≤ pitch → 0 ≤ hmToMs bh.startHour bh.startMinute →
    slot ∈ generateDays f cur rangeEnd dur pitch bh → cur ≤ slot.start := by
  intro f
  induction f with
  | zero => intro cur rangeEnd dur pitch bh _ _ h; simp [generateDays] at h
  | succ f ih =>
    intro cur rangeEnd dur pitch bh hp hopen h
    simp only [generateDays] at h
    by_cases hcur : cur ≤ rangeEnd
    · rw [if_pos hcur] at h
      rcases List.mem_append.mp h with hday | hrec
      · by_cases hct : bh.daysOfWeek.contains (dayOfWeek cur) = true
        · rw [if_pos hct] at hday
          have := mem_generateDaySlots_lb hp hday
          linarith
        · rw [if_neg hct] at hday; simp at hday
      · have := ih hp hopen hrec
        have hd : (0 : Int) < msPerDay := by norm_num [msPerDay]
        linarith
    · rw [if_neg hcur] at h
      simp at h

/-- With a positive duration, a non-negative pitch, a non-negative opening
offset and a close no later than 24:00, the day loop emits slots in
chronological order. -/
theorem pairwise_generateDays :
    ∀ {f : Nat} {cur rangeEnd dur pitch : Int} {bh : BusinessHoursSpec},
    0 < dur → 0 ≤ pitch → 0 ≤ hmToMs bh.startHour bh.startMinute →
    hmToMs bh.endHour bh.endMinute ≤ msPerDay →
    List.Pairwise (fun a b : TimeSlot => a.start ≤ b.start)
      (generateDays f cur rangeEnd dur pitch bh) := by
  intro f
  induction f with
  | zero => intro cur rangeEnd dur pitch bh _ _ _ _; simp [generateDays]
  | succ f ih =>
    intro cur rangeEnd dur pitch bh hdur hp hopen hclose
    simp only [generateDays]
    by_cases hcur : cur ≤ rangeEnd
    · rw [if_pos hcur]
      rw [List.pairwise_append]
      refine ⟨?_, ih hdur hp hopen hclose, ?_⟩
      · by_cases hct : bh.daysOfWeek.contains (dayOfWeek cur) = true
        · rw [if_pos hct]; exact pairwise_generateDaySlots hp
        · rw [if_neg hct]; simp
      · intro a ha b hb
        by_cases hct : bh.daysOfWeek.contains (dayOfWeek cur) = true
        · rw [if_pos hct] at ha
          have h1 := (mem_generateDaySlots ha).2.2.2
          have h2 := mem_generateDays_lb hp hopen hb
          have h3 : 0 < dur * msPerMinute :=
            mul_pos hdur (by norm_num [msPerMinute])
          show a.start ≤ b.start
          linarith
        · rw [if_neg hct] at ha; simp at ha
    · rw [if_neg hcur]; simp

/-- `midnightOf` always lands on a whole-day boundary. -/
theorem msPerDay_dvd_midnightOf (t : Int) : msPerDay ∣ midnightOf t :=
  ⟨t / msPerDay, by unfold midnightOf; ring⟩

/-- Two instants inside the same whole-day window share their weekday. -/
theorem dayOfWeek_eq_of_in_day {day t : Int} (hd : msPerDay ∣ day)
    (h1 : day ≤ t) (h2 : t < day + msPerDay) : dayOfWeek t = dayOfWeek day := by
  rcases hd with ⟨q, hq⟩
  subst hq
  unfold dayOfWeek msPerDay at *
  omega

/-- Membership in `findAvailableSlots`, unfolded: the slot is generated and
the conflict filter does not reject it. -/
theorem mem_findAvailableSlots {slot : TimeSlot} {fuel : Nat} {cal : List BusyInterval}
    {duration : Int} {dateRange : DateRange} {preferences : Option SchedulingPreferences} :
    slot ∈ findAvailableSlots fuel cal duration dateRange preferences ↔
    slot ∈ generatePossibleSlots fuel dateRange duration (bufferOf preferences)
      (businessHoursOf preferences) ∧
    isSlotBusy slot (getFreeBusy cal dateRange.start dateRange.stop)
      (bufferOf preferences) = false := by
  unfold findAvailableSlots
  rw [List.mem_filter]
  simp

/-- Every slot returned by `findAvailableSlots` spans exactly the requested
duration, is available and unscored. -/
theorem span_of_mem_findAvailableSlots {slot : TimeSlot} {fuel : Nat}
    {cal : List BusyInterval} {duration : Int} {dateRange : DateRange}
    {preferences : Option SchedulingPreferences}
    (h : slot ∈ findAvailableSlots fuel cal duration dateRange preferences) :
    slot.stop = slot.start + duration * msPerMinute ∧ slot.available = true ∧
    slot.score = none := by
  have h1 := (mem_findAvailableSlots.mp h).1
  unfold generatePossibleSlots at h1
  rcases mem_generateDays h1 with ⟨day, _, _, _, f2, hmem⟩
  have := mem_generateDaySlots hmem
  exact ⟨this.1, this.2.1, this.2.2.1⟩

/-- The three overlap conditions of `isSlotBusy` hold exactly when the
buffer-expanded window has a nonempty intersection with the busy interval,
for well-formed busy intervals and a nonempty expanded window; the
overlap-to-condition direction holds unconditionally. -/
theorem isSlotBusy_eq_true_iff {slot : TimeSlot} {busyTimes : List BusyInterval}
    {bufferTime : Int}
    (hwf : ∀ b ∈ busyTimes, b.start < b.stop)
    (hpos : slot.start - bufferTime * msPerMinute < slot.stop + bufferTime * msPerMinute) :
    isSlotBusy slot busyTimes bufferTime = true ↔
    ∃ b ∈ busyTimes, overlapsInterval (slot.start - bufferTime * msPerMinute)
      (slot.stop + bufferTime * msPerMinute) b := by
  unfold isSlotBusy overlapsInterval
  rw [List.any_eq_true]
  constructor
  · rintro ⟨b, hb, hcond⟩
    refine ⟨b, hb, ?_⟩
    have hw := hwf b hb
    simp only [Bool.or_eq_true, Bool.and_eq_true, decide_eq_true_eq] at hcond
    constructor <;> omega
  · rintro ⟨b, hb, h1, h2⟩
    refine ⟨b, hb, ?_⟩
    simp only [Bool.or_eq_true, Bool.and_eq_true, decide_eq_true_eq]
    omega

/-- A busy interval overlapping the expanded window always trips one of the
three conditions (no well-formedness needed in this direction). -/
theorem isSlotBusy_of_overlap {slot : TimeSlot} {busyTimes : List BusyInterval}
    {bufferTime : Int} {b : BusyInterval} (hb : b ∈ busyTimes)
    (hov : overlapsInterval (slot.start - bufferTime * msPerMinute)
      (slot.stop + bufferTime * msPerMinute) b) :
    isSlotBusy slot busyTimes bufferTime = true := by
  unfold isSlotBusy
  rw [List.any_eq_true]
  refine ⟨b, hb, ?_⟩
  rcases hov with ⟨h1, h2⟩
  simp only [Bool.or_eq_true, Bool.and_eq_true, decide_eq_true_eq]
  omega

/-! ### Lemmas about the stable descending sort -/

/-- Membership under one insertion step. -/
theorem mem_insertByScore {a x : TimeSlot} :
    ∀ {l : List TimeSlot}, a ∈ insertByScore x l ↔ a = x ∨ a ∈ l := by
  intro l
  induction l with
  | nil => simp [insertByScore]
  | cons y ys ih =>
    unfold insertByScore
    by_cases hc : scoreValue y < scoreValue x
    · rw [if_pos hc]; simp [List.mem_cons]
    · rw [if_neg hc]
      simp only [List.mem_cons, ih]
      tauto

/-- Membership under the whole sort. -/
theorem mem_sortFold {a : TimeSlot} :
    ∀ {l acc : List TimeSlot},
    a ∈ List.foldl (fun acc x => insertByScore x acc) acc l ↔ a ∈ acc ∨ a ∈ l := by
  intro l
  induction l with
  | nil => intro acc; simp
  | cons x xs ih =>
    intro acc
    simp only [List.foldl_cons, ih, mem_insertByScore, List.mem_cons]
    tauto

/-- The sort neither adds nor removes slots. -/
theorem mem_sortByScoreDesc {a : TimeSlot} {l : List TimeSlot} :
    a ∈ sortByScoreDesc l ↔ a ∈ l := by
  unfold sortByScoreDesc
  rw [mem_sortFold]
  simp

/-- Inserting an element that ties no earlier element out of order preserves
the ranking invariant. -/
theorem pairwise_insertByScore {x : TimeSlot} :
    ∀ {l : List TimeSlot}, List.Pairwise rankedLE l →
    (∀ y ∈ l, scoreValue y = scoreValue x → y.start ≤ x.start) →
    List.Pairwise rankedLE (insertByScore x l) := by
  intro l
  induction l with
  | nil => intro _ _; simp [insertByScore, List.pairwise_cons]
  | cons y ys ih =>
    intro hl hx
    unfold insertByScore
    by_cases hc : scoreValue y < scoreValue x
    · rw [if_pos hc]
      refine List.Pairwise.cons ?_ hl
      intro b hb
      rcases List.mem_cons.mp hb with rfl | hbys
      · exact ⟨le_of_lt hc, fun he => absurd he.symm (ne_of_lt hc)⟩
      · have hyb := (List.pairwise_cons.mp hl).1 b hbys
        have h1 : scoreValue b < scoreValue x := lt_of_le_of_lt hyb.1 hc
        exact ⟨le_of_lt h1, fun he => absurd h1 (by rw [he]; exact lt_irrefl _)⟩
    · rw [if_neg hc]
      rcases List.pairwise_cons.mp hl with ⟨hy, hys⟩
      refine List.Pairwise.cons ?_ (ih hys fun z hz => hx z (List.mem_cons_of_mem _ hz))
      intro b hb
      rcases mem_insertByScore.mp hb with rfl | hbys
      · exact ⟨not_lt.mp hc, fun he => hx y (List.mem_cons_self _ _) he⟩
      · exact hy b hbys

/-- Folding insertions over a chronologically ordered input keeps the
accumulated list ranked (descending score, ties chronological). -/
theorem pairwise_sortFold :
    ∀ {l acc : List TimeSlot},
    List.Pairwise (fun a b : TimeSlot => a.start ≤ b.start) l →
    List.Pairwise rankedLE acc →
    (∀ y ∈ acc, ∀ x ∈ l, y.start ≤ x.start) →
    List.Pairwise rankedLE (List.foldl (fun acc x => insertByScore x acc) acc l) := by
  intro l
  induction l with
  | nil => intro acc _ hacc _; simpa using hacc
  | cons x xs ih =>
    intro acc hl hacc hcross
    rw [List.foldl_cons]
    rcases List.pairwise_cons.mp hl with ⟨hx, hxs⟩
    refine ih hxs ?_ ?_
    · exact pairwise_insertByScore hacc fun y hy _ => hcross y hy x (List.mem_cons_self _ _)
    · intro y hy z hz
      rcases mem_insertByScore.mp hy with rfl | hyacc
      · exact hx z hz
      · exact hcross y hyacc z (List.mem_cons_of_mem _ hz)

/-- Sorting a chronologically ordered list yields a ranked list. -/
theorem pairwise_sortByScoreDesc {l : List TimeSlot}
    (hl : List.Pairwise (fun a b : TimeSlot => a.start ≤ b.start) l) :
    List.Pairwise rankedLE (sortByScoreDesc l) := by
  unfold sortByScoreDesc
  exact pairwise_sortFold hl (by simp) (by simp)

/-- The slot score only reads the slot's start instant. -/
theorem calculateSlotScore_congr {a b : TimeSlot} (h : a.start = b.start)
    (now : Int) (preferences : Option SchedulingPreferences) :
    calculateSlotScore a now preferences = calculateSlotScore b now preferences := by
  unfold calculateSlotScore
  rw [h]

/-- With a positive duration, a non-negative effective buffer, and a
well-formed effective business-hours window, `findAvailableSlots` returns its
slots in chronological order. -/
theorem pairwise_findAvailableSlots {fuel : Nat} {cal : List BusyInterval}
    {duration : Int} {dateRange : DateRange} {preferences : Option SchedulingPreferences}
    (hdur : 0 < duration) (hbuf : 0 ≤ bufferOf preferences)
    (hopen : 0 ≤ hmToMs (businessHoursOf preferences).startHour
      (businessHoursOf preferences).startMinute)
    (hclose : hmToMs (businessHoursOf preferences).endHour
      (businessHoursOf preferences).endMinute ≤ msPerDay) :
    List.Pairwise (fun a b : TimeSlot => a.start ≤ b.start)
      (findAvailableSlots fuel cal duration dateRange preferences) := by
  unfold findAvailableSlots generatePossibleSlots
  exact List.Pairwise.filter _ (pairwise_generateDays hdur (by linarith) hopen hclose)

/-- Decomposition of `suggestOptimalTimes` membership: the returned slot is
score-stripped and shares start, end and availability with some slot of the
underlying `findAvailableSlots` call over the defaulted two-week range. -/
theorem mem_suggestOptimalTimes {slot : TimeSlot} {fuel : Nat} {cal : List BusyInterval}
    {now duration : Int} {preferences : Option SchedulingPreferences}
    (h : slot ∈ suggestOptimalTimes fuel cal now duration preferences) :
    slot.score = none ∧
    ∃ c ∈ findAvailableSlots fuel cal duration ⟨now, now + 14 * msPerDay⟩ preferences,
      slot.start = c.start ∧ slot.stop = c.stop ∧ slot.available = c.available := by
  unfold suggestOptimalTimes at h
  rcases List.mem_map.mp h with ⟨s1, hs1, rfl⟩
  refine ⟨rfl, ?_⟩
  have hs2 : s1 ∈ sortByScoreDesc _ := List.mem_of_mem_take hs1
  have hs3 := mem_sortByScoreDesc.mp hs2
  rcases List.mem_map.mp hs3 with ⟨c, hc, rfl⟩
  exact ⟨c, hc, rfl, rfl, rfl⟩

/-! ### Claim theorems -/

/-- C1 (code bug, Scenario A evaluated on the code): with `durationMinutes =
15`, working hours 09:00-17:00 on working days 1..5, an explicit
`bufferMinutes = 0` and one busy interval 09:00-09:15 on the Monday, the
engine resolves the buffer with `preferences?.bufferMinutes ||
defaultBufferTime`, so the explicit 0 falls back to 15 and the first Monday
slot starts at 09:30, not at 09:15 as the claim states. -/
theorem c1_scenario_a_buffer_zero_not_honored :
    prefsScenarioA.bufferMinutes = 0 ∧
    bufferOf (some prefsScenarioA) = 15 ∧
    (findAvailableSlots 40 calScenarioA 15 rangeScenarioA (some prefsScenarioA)).head? =
      some { start := monday0 + mins 570, stop := monday0 + mins 585,
             available := true, score := none } := by
  decide

/-- C3: the three overlap conditions of `isSlotBusy` reject exactly the
candidates whose buffer-expanded window `[start - buffer, end + buffer)`
meets a busy interval `[b.start, b.stop)` (for well-formed busy intervals and
a nonempty expanded window), and consequently no slot returned by
`findAvailableSlots` overlaps, after buffer expansion, any busy interval of
the fetched busy set. -/
theorem c3_conflict_filter_exact :
    (∀ (slot : TimeSlot) (busyTimes : List BusyInterval) (bufferTime : Int),
      (∀ b ∈ busyTimes, b.start < b.stop) →
      slot.start - bufferTime * msPerMinute < slot.stop + bufferTime * msPerMinute →
      (isSlotBusy slot busyTimes bufferTime = true ↔
        ∃ b ∈ busyTimes, overlapsInterval (slot.start - bufferTime * msPerMinute)
          (slot.stop + bufferTime * msPerMinute) b)) ∧
    (∀ (fuel : Nat) (cal : List BusyInterval) (duration : Int) (dateRange : DateRange)
      (preferences : Option SchedulingPreferences) (slot : TimeSlot),
      slot ∈ findAvailableSlots fuel cal duration dateRange preferences →
      ∀ b ∈ getFreeBusy cal dateRange.start dateRange.stop,
        ¬ overlapsInterval (slot.start - bufferOf preferences * msPerMinute)
          (slot.stop + bufferOf preferences * msPerMinute) b) := by
  constructor
  · intro slot busyTimes bufferTime hwf hpos
    exact isSlotBusy_eq_true_iff hwf hpos
  · intro fuel cal duration dateRange preferences slot hmem b hb hov
    have hfalse := (mem_findAvailableSlots.mp hmem).2
    have htrue := isSlotBusy_of_overlap hb hov
    rw [hfalse] at htrue
    exact Bool.false_ne_true htrue

/-- Witness for C3: a busy interval 00:05-00:10 strictly inside the slot
00:00-00:15 trips the filter (the containment condition), obtained by
applying the equivalence at concrete inputs. -/
theorem c3_conflict_filter_exact_witness :
    isSlotBusy ⟨0, mins 15, true, none⟩ [⟨mins 5, mins 10⟩] 0 = true :=
  (c3_conflict_filter_exact.1 ⟨0, mins 15, true, none⟩ [⟨mins 5, mins 10⟩] 0
    (by decide) (by decide)).mpr ⟨⟨mins 5, mins 10⟩, by decide, by decide⟩

/-- C5 (counterexample): none of the four public operations raises
`InvalidRangeError`.  With a backwards date range `findAvailableSlots`
returns an ordinary (here even non-empty) result, and with
`durationMinutes <= 0` the other operations likewise return `ok`. -/
theorem c5_counterexample_no_error_raised :
    rangeBackwards.stop < rangeBackwards.start ∧
    findAvailableSlotsE 5 [] 30 rangeBackwards none ≠
      Except.error SchedulingError.invalidRangeError ∧
    findAvailableSlots 5 [] 30 rangeBackwards none ≠ [] ∧
    suggestOptimalTimesE 20 [] nowMonday10 0 (some prefsTinyWindow) ≠
      Except.error SchedulingError.invalidRangeError ∧
    isSlotAvailableE [] monday0 (-5) 15 ≠
      Except.error SchedulingError.invalidRangeError ∧
    getNextAvailableSlotE 35 [] nowMonday10 0 (some prefsTinyWindow) ≠
      Except.error SchedulingError.invalidRangeError := by
  refine ⟨by decide, ?_, by decide, ?_, ?_, ?_⟩ <;>
    simp [findAvailableSlotsE, suggestOptimalTimesE, isSlotAvailableE, getNextAvailableSlotE]

/-- C5 (amended): the engine performs no validation of the date range or the
duration: no public operation ever produces an error of the spec's taxonomy;
invalid inputs yield ordinary results. -/
theorem c5_amended_no_validation :
    (∀ (fuel : Nat) (cal : List BusyInterval) (duration : Int) (dateRange : DateRange)
      (preferences : Option SchedulingPreferences) (e : SchedulingError),
      findAvailableSlotsE fuel cal duration dateRange preferences ≠ Except.error e) ∧
    (∀ (fuel : Nat) (cal : List BusyInterval) (now duration : Int)
      (preferences : Option SchedulingPreferences) (e : SchedulingError),
      suggestOptimalTimesE fuel cal now duration preferences ≠ Except.error e) ∧
    (∀ (cal : List BusyInterval) (start duration bufferTime : Int) (e : SchedulingError),
      isSlotAvailableE cal start duration bufferTime ≠ Except.error e) ∧
    (∀ (fuel : Nat) (cal : List BusyInterval) (now duration : Int)
      (preferences : Option SchedulingPreferences) (e : SchedulingError),
      getNextAvailableSlotE fuel cal now duration preferences ≠ Except.error e) := by
  refine ⟨?_, ?_, ?_, ?_⟩ <;> intros <;>
    simp [findAvailableSlotsE, suggestOptimalTimesE, isSlotAvailableE, getNextAvailableSlotE]

/-- C7: the implemented slot score equals the spec's formula (base 100, the
two bonuses, the off-hours penalty, minus two per full day from now, the
preferred-day bonus, clamped below at zero), and is never negative. -/
theorem c7_score_formula (slot : TimeSlot) (now : Int)
    (preferences : Option SchedulingPreferences) :
    calculateSlotScore slot now preferences = specSlotScore slot now preferences ∧
    0 ≤ calculateSlotScore slot now preferences := by
  constructor
  · rcases preferences with _ | ⟨whs, whe, wd, bm, pt, pd⟩
    · simp only [calculateSlotScore, specSlotScore]
      generalize (slot.start - now) / msPerDay = dfn
      split_ifs <;> omega
    · rcases pd with _ | ds <;>
        · simp only [calculateSlotScore, specSlotScore]
          generalize (slot.start - now) / msPerDay = dfn
          split_ifs <;> omega
  · exact le_max_left _ _

/-- C9: day iteration is truncated to midnight, so a range starting mid-day
yields a slot starting before the range start, a range ending before the
day's close yields a slot ending after the range end, and
`suggestOptimalTimes`, whose window starts at `now`, can return a slot that
starts in the past. -/
theorem c9_midnight_truncation :
    (∃ s ∈ findAvailableSlots 40 [] 15 rangeMondayShort (some prefsMonday),
      s.start < rangeMondayShort.start) ∧
    (∃ s ∈ findAvailableSlots 40 [] 15 rangeMondayShort (some prefsMonday),
      rangeMondayShort.stop < s.stop) ∧
    (∃ s ∈ suggestOptimalTimes 20 [] nowMonday10 15 (some prefsTinyWindow),
      s.start < nowMonday10) := by
  decide

/-- A non-negative `bufferMinutes` resolves to a non-negative effective
buffer (an explicit 0 falls back to the positive default). -/
theorem bufferOf_nonneg {p : SchedulingPreferences} (h : 0 ≤ p.bufferMinutes) :
    0 ≤ bufferOf (some p) := by
  simp only [bufferOf, jsOrNum, defaultBufferTime]
  split_ifs <;> omega

/-- C2 (counterexample): with preferences whose `workingDays` is `[1]`
(Mondays) and `workingHours` 10:00-11:00 but with `preferredTimes` unset, the
engine falls back to its defaults (all seven days, 09:00-21:00) and returns
Sunday slots, so not every returned slot's weekday lies in
`preferences.workingDays`. -/
theorem c2_counterexample_workingdays_ignored :
    prefsWorkingOnly.preferredTimes = none ∧
    prefsWorkingOnly.workingDays = [1] ∧
    ((findAvailableSlots 40 [] 60 rangeSunday (some prefsWorkingOnly)).all
      fun s => prefsWorkingOnly.workingDays.contains (dayOfWeek s.start)) = false := by
  decide

/-- C2 (amended): slot generation is driven by `preferences.preferredTimes`
(fields `daysOfWeek`, `start`, `end`), not by `workingDays`/`workingHours`:
when `preferredTimes` is supplied (with a positive duration, a non-negative
buffer, and a well-formed time-of-day window) every returned slot's weekday
lies in `preferredTimes.daysOfWeek` and the slot lies within that day's
window; the `workingHours` and `workingDays` fields are ignored entirely. -/
theorem c2_amended_preferred_times_bound :
    (∀ (fuel : Nat) (cal : List BusyInterval) (duration : Int) (dateRange : DateRange)
      (p : SchedulingPreferences) (pt : BusinessHoursSpec) (slot : TimeSlot),
      p.preferredTimes = some pt →
      0 < duration → 0 ≤ p.bufferMinutes →
      0 ≤ hmToMs pt.startHour pt.startMinute →
      hmToMs pt.endHour pt.endMinute ≤ msPerDay →
      slot ∈ findAvailableSlots fuel cal duration dateRange (some p) →
      pt.daysOfWeek.contains (dayOfWeek slot.start) = true ∧
      ∃ day : Int, msPerDay ∣ day ∧ dayOfWeek day = dayOfWeek slot.start ∧
        day + hmToMs pt.startHour pt.startMinute ≤ slot.start ∧
        slot.stop ≤ day + hmToMs pt.endHour pt.endMinute) ∧
    (∀ (fuel : Nat) (cal : List BusyInterval) (duration : Int) (dateRange : DateRange)
      (whs1 whe1 : HmTime) (wd1 : List Int) (whs2 whe2 : HmTime) (wd2 : List Int)
      (bm : Int) (pt : Option BusinessHoursSpec) (pd : Option (List Int)),
      findAvailableSlots fuel cal duration dateRange
        (some ⟨whs1, whe1, wd1, bm, pt, pd⟩) =
      findAvailableSlots fuel cal duration dateRange
        (some ⟨whs2, whe2, wd2, bm, pt, pd⟩)) := by
  constructor
  · intro fuel cal duration dateRange p pt slot hpt hdur hbm hopen hclose hmem
    have hbuf : 0 ≤ bufferOf (some p) := bufferOf_nonneg hbm
    have hbh : businessHoursOf (some p) = pt := by
      simp [businessHoursOf, hpt]
    have h1 := (mem_findAvailableSlots.mp hmem).1
    unfold generatePossibleSlots at h1
    rw [hbh] at h1
    rcases mem_generateDays h1 with ⟨day, ⟨k, hk⟩, _, hct, f2, hmem2⟩
    have hbasic := mem_generateDaySlots hmem2
    have hlb := mem_generateDaySlots_lb
      (show (0:Int) ≤ duration + bufferOf (some p) by linarith) hmem2
    have hdvd : msPerDay ∣ day := by
      rw [hk]
      exact dvd_add (msPerDay_dvd_midnightOf _) (dvd_mul_left _ _)
    have hms : (0:Int) < msPerMinute := by norm_num [msPerMinute]
    have hdm : 0 < duration * msPerMinute := mul_pos hdur hms
    have hclose2 := hbasic.2.2.2
    have hday : day ≤ slot.start := by linarith
    have hday2 : slot.start < day + msPerDay := by linarith
    have hw := dayOfWeek_eq_of_in_day hdvd hday hday2
    rw [hw]
    refine ⟨hct, day, hdvd, rfl, hlb, ?_⟩
    rw [hbasic.1]
    exact hclose2
  · intro fuel cal duration dateRange whs1 whe1 wd1 whs2 whe2 wd2 bm pt pd
    rfl

/-- Witness for C2 (amended): the first returned Monday slot of the Scenario
A inputs lies inside the 09:00-17:00 Monday-to-Friday window. -/
theorem c2_amended_preferred_times_bound_witness :
    (⟨9, 0, 17, 0, [1, 2, 3, 4, 5]⟩ : BusinessHoursSpec).daysOfWeek.contains
      (dayOfWeek (⟨monday0 + mins 570, monday0 + mins 585, true, none⟩ : TimeSlot).start)
      = true ∧
    ∃ day : Int, msPerDay ∣ day ∧
      dayOfWeek day =
        dayOfWeek (⟨monday0 + mins 570, monday0 + mins 585, true, none⟩ : TimeSlot).start ∧
      day + hmToMs (⟨9, 0, 17, 0, [1, 2, 3, 4, 5]⟩ : BusinessHoursSpec).startHour
        (⟨9, 0, 17, 0, [1, 2, 3, 4, 5]⟩ : BusinessHoursSpec).startMinute ≤
        (⟨monday0 + mins 570, monday0 + mins 585, true, none⟩ : TimeSlot).start ∧
      (⟨monday0 + mins 570, monday0 + mins 585, true, none⟩ : TimeSlot).stop ≤
        day + hmToMs (⟨9, 0, 17, 0, [1, 2, 3, 4, 5]⟩ : BusinessHoursSpec).endHour
          (⟨9, 0, 17, 0, [1, 2, 3, 4, 5]⟩ : BusinessHoursSpec).endMinute :=
  c2_amended_preferred_times_bound.1 40 calScenarioA 15 rangeScenarioA prefsScenarioA
    ⟨9, 0, 17, 0, [1, 2, 3, 4, 5]⟩ ⟨monday0 + mins 570, monday0 + mins 585, true, none⟩
    rfl (by decide) (by decide) (by decide) (by decide) (by decide)

/-- C4: `suggestOptimalTimes` returns at most 10 slots; recomputing each
returned slot's internal score (a function of its start instant, which
scoring and ranking preserve) gives a non-increasing sequence, and equal
scores appear in order of start time (the JavaScript sort is stable and its
input is chronological). -/
theorem c4_suggest_ranked (fuel : Nat) (cal : List BusyInterval) (now duration : Int)
    (preferences : Option SchedulingPreferences)
    (hdur : 0 < duration) (hbuf : 0 ≤ bufferOf preferences)
    (hopen : 0 ≤ hmToMs (businessHoursOf preferences).startHour
      (businessHoursOf preferences).startMinute)
    (hclose : hmToMs (businessHoursOf preferences).endHour
      (businessHoursOf preferences).endMinute ≤ msPerDay) :
    (suggestOptimalTimes fuel cal now duration preferences).length ≤ 10 ∧
    List.Pairwise (fun a b : TimeSlot =>
      calculateSlotScore b now preferences ≤ calculateSlotScore a now preferences ∧
      (calculateSlotScore a now preferences = calculateSlotScore b now preferences →
        a.start ≤ b.start))
      (suggestOptimalTimes fuel cal now duration preferences) := by
  have hdef : suggestOptimalTimes fuel cal now duration preferences =
      ((sortByScoreDesc ((findAvailableSlots fuel cal duration
        ⟨now, now + 14 * msPerDay⟩ preferences).map fun slot =>
          { slot with score := some (calculateSlotScore slot now preferences) })).take 10).map
        (fun slot => { slot with score := none }) := rfl
  rw [hdef]
  constructor
  · rw [List.length_map]
    exact List.length_take_le _ _
  · have hchron := @pairwise_findAvailableSlots fuel cal duration
      ⟨now, now + 14 * msPerDay⟩ preferences hdur hbuf hopen hclose
    have hscored : List.Pairwise (fun a b : TimeSlot => a.start ≤ b.start)
        ((findAvailableSlots fuel cal duration ⟨now, now + 14 * msPerDay⟩ preferences).map
          fun slot => { slot with score := some (calculateSlotScore slot now preferences) }) := by
      rw [List.pairwise_map]
      exact hchron
    have hranked := pairwise_sortByScoreDesc hscored
    have htake := List.Pairwise.sublist (List.take_sublist 10 _) hranked
    have key : ∀ x : TimeSlot,
        x ∈ (sortByScoreDesc ((findAvailableSlots fuel cal duration
          ⟨now, now + 14 * msPerDay⟩ preferences).map fun slot =>
            { slot with score := some (calculateSlotScore slot now preferences) })).take 10 →
        scoreValue x = calculateSlotScore x now preferences := by
      intro x hx
      have hx2 := mem_sortByScoreDesc.mp (List.mem_of_mem_take hx)
      rcases List.mem_map.mp hx2 with ⟨c, _, rfl⟩
      show calculateSlotScore c now preferences = _
      exact (calculateSlotScore_congr rfl now preferences).symm
    rw [List.pairwise_map]
    refine List.Pairwise.imp_of_mem ?_ htake
    intro a b ha hb hab
    have ka := key a ha
    have kb := key b hb
    have ca : calculateSlotScore ({ a with score := none } : TimeSlot) now preferences =
        calculateSlotScore a now preferences := calculateSlotScore_congr rfl now preferences
    have cb : calculateSlotScore ({ b with score := none } : TimeSlot) now preferences =
        calculateSlotScore b now preferences := calculateSlotScore_congr rfl now preferences
    constructor
    · rw [ca, cb, ← ka, ← kb]
      exact hab.1
    · intro he
      rw [ca, cb, ← ka, ← kb] at he
      exact hab.2 he

/-- Witness for C4: a concrete two-week search with an eight-hour duration
produces exactly 10 ranked suggestions. -/
theorem c4_suggest_ranked_witness :
    (suggestOptimalTimes 20 [] monday0 480 none).length ≤ 10 ∧
    List.Pairwise (fun a b : TimeSlot =>
      calculateSlotScore b monday0 none ≤ calculateSlotScore a monday0 none ∧
      (calculateSlotScore a monday0 none = calculateSlotScore b monday0 none →
        a.start ≤ b.start))
      (suggestOptimalTimes 20 [] monday0 480 none) :=
  c4_suggest_ranked 20 [] monday0 480 none (by decide) (by decide) (by decide) (by decide)

/-- C6 (counterexample): the Monday 09:00 slot is returned by
`findAvailableSlots` for the mid-day range 10:00-17:00 (the range-wide busy
fetch does not see the 08:00-08:30 busy interval, which lies outside the
range), yet `isSlotAvailable` for the same calendar, start, duration and
buffer queries exactly the expanded window 08:15-10:00, receives that busy
interval, and returns false. -/
theorem c6_counterexample_edge_slot :
    (⟨monday0 + mins 540, monday0 + mins 555, true, none⟩ : TimeSlot) ∈
      findAvailableSlots 40 calEarlyBusy 15 rangeMondayMidday (some prefsMonday) ∧
    bufferOf (some prefsMonday) = 45 ∧
    isSlotAvailable calEarlyBusy (monday0 + mins 540) 15 45 = false := by
  decide

/-- C6 (amended): `findAvailableSlots` and `isSlotAvailable` agree on every
returned slot whose buffer-expanded window lies inside the fetched date
range: for such a slot, `isSlotAvailable` with the same calendar, start,
duration and effective buffer returns true.  (Slots whose expanded window
leaves the range, possible through midnight truncation, may disagree.) -/
theorem c6_amended_agreement (fuel : Nat) (cal : List BusyInterval) (duration : Int)
    (dateRange : DateRange) (preferences : Option SchedulingPreferences) (slot : TimeSlot)
    (hmem : slot ∈ findAvailableSlots fuel cal duration dateRange preferences)
    (h1 : dateRange.start ≤ slot.start - bufferOf preferences * msPerMinute)
    (h2 : slot.stop + bufferOf preferences * msPerMinute ≤ dateRange.stop) :
    isSlotAvailable cal slot.start duration (bufferOf preferences) = true := by
  have hspan := (span_of_mem_findAvailableSlots hmem).1
  have hbusy := (mem_findAvailableSlots.mp hmem).2
  have hdef : isSlotAvailable cal slot.start duration (bufferOf preferences) =
      ((getFreeBusy cal (slot.start - bufferOf preferences * msPerMinute)
        (slot.start + duration * msPerMinute + bufferOf preferences * msPerMinute)).length
        == 0) := rfl
  rw [hdef]
  have hnil : getFreeBusy cal (slot.start - bufferOf preferences * msPerMinute)
      (slot.start + duration * msPerMinute + bufferOf preferences * msPerMinute) = [] := by
    unfold getFreeBusy
    rw [List.filter_eq_nil_iff]
    intro b hb
    simp only [Bool.and_eq_true, decide_eq_true_eq, not_and, not_lt]
    intro hlt1
    by_contra hcon
    push_neg at hcon
    have hlt2 : slot.start - bufferOf preferences * msPerMinute < b.stop := hcon
    have hbmem : b ∈ getFreeBusy cal dateRange.start dateRange.stop := by
      unfold getFreeBusy
      rw [List.mem_filter]
      refine ⟨hb, ?_⟩
      simp only [Bool.and_eq_true, decide_eq_true_eq]
      constructor
      · linarith
      · linarith
    have hov : overlapsInterval (slot.start - bufferOf preferences * msPerMinute)
        (slot.stop + bufferOf preferences * msPerMinute) b := by
      constructor
      · exact hlt2
      · rw [hspan]; linarith
    have htrue := isSlotBusy_of_overlap hbmem hov
    rw [hbusy] at htrue
    exact Bool.false_ne_true htrue
  rw [hnil]
  rfl

/-- Witness for C6 (amended): with an empty calendar and a range covering the
whole Monday, the returned 09:00 slot is confirmed by `isSlotAvailable`. -/
theorem c6_amended_agreement_witness :
    isSlotAvailable []
      (⟨monday0 + mins 540, monday0 + mins 555, true, none⟩ : TimeSlot).start 15
      (bufferOf (some prefsMonday)) = true :=
  c6_amended_agreement 40 [] 15 rangeMondayFull (some prefsMonday)
    ⟨monday0 + mins 540, monday0 + mins 555, true, none⟩
    (by decide) (by decide) (by decide)

/-- C8: every generated slot spans exactly the requested duration (the buffer
only widens the pitch between consecutive slots, not the slot itself), and
the same holds for every slot returned by `findAvailableSlots`,
`suggestOptimalTimes` and `getNextAvailableSlot`. -/
theorem c8_slot_span_is_duration :
    (∀ (fuel : Nat) (dateRange : DateRange) (duration bufferTime : Int)
      (bh : BusinessHoursSpec) (slot : TimeSlot),
      slot ∈ generatePossibleSlots fuel dateRange duration bufferTime bh →
      slot.stop - slot.start = duration * msPerMinute) ∧
    (∀ (fuel : Nat) (cal : List BusyInterval) (duration : Int) (dateRange : DateRange)
      (preferences : Option SchedulingPreferences) (slot : TimeSlot),
      slot ∈ findAvailableSlots fuel cal duration dateRange preferences →
      slot.stop - slot.start = duration * msPerMinute) ∧
    (∀ (fuel : Nat) (cal : List BusyInterval) (now duration : Int)
      (preferences : Option SchedulingPreferences) (slot : TimeSlot),
      slot ∈ suggestOptimalTimes fuel cal now duration preferences →
      slot.stop - slot.start = duration * msPerMinute) ∧
    (∀ (fuel : Nat) (cal : List BusyInterval) (now duration : Int)
      (preferences : Option SchedulingPreferences) (slot : TimeSlot),
      getNextAvailableSlot fuel cal now duration preferences = some slot →
      slot.stop - slot.start = duration * msPerMinute) := by
  refine ⟨?_, ?_, ?_, ?_⟩
  · intro fuel dateRange duration bufferTime bh slot h
    unfold generatePossibleSlots at h
    rcases mem_generateDays h with ⟨day, _, _, _, f2, h2⟩
    have := (mem_generateDaySlots h2).1
    linarith
  · intro fuel cal duration dateRange preferences slot h
    have := (span_of_mem_findAvailableSlots h).1
    linarith
  · intro fuel cal now duration preferences slot h
    rcases mem_suggestOptimalTimes h with ⟨_, c, hc, hstart, hstop, _⟩
    have := (span_of_mem_findAvailableSlots hc).1
    rw [hstart, hstop]
    linarith
  · intro fuel cal now duration preferences slot h
    unfold getNextAvailableSlot at h
    have hm := List.mem_of_mem_head? h
    have := (span_of_mem_findAvailableSlots hm).1
    linarith

/-- Witness for C8: the first slot of the Scenario A run spans exactly 15
minutes. -/
theorem c8_slot_span_is_duration_witness :
    (⟨monday0 + mins 570, monday0 + mins 585, true, none⟩ : TimeSlot).stop -
      (⟨monday0 + mins 570, monday0 + mins 585, true, none⟩ : TimeSlot).start =
      15 * msPerMinute :=
  c8_slot_span_is_duration.2.1 40 calScenarioA 15 rangeScenarioA (some prefsScenarioA)
    ⟨monday0 + mins 570, monday0 + mins 585, true, none⟩ (by decide)

/-- C10: every slot returned by `suggestOptimalTimes` has its score field
absent (stripped after ranking), and its start, end and availability are
exactly those of a slot of the underlying conflict-filtered
`findAvailableSlots` call, unchanged by scoring and ranking. -/
theorem c10_suggest_strips_score (fuel : Nat) (cal : List BusyInterval)
    (now duration : Int) (preferences : Option SchedulingPreferences) (slot : TimeSlot)
    (h : slot ∈ suggestOptimalTimes fuel cal now duration preferences) :
    slot.score = none ∧
    ∃ c ∈ findAvailableSlots fuel cal duration ⟨now, now + 14 * msPerDay⟩ preferences,
      slot.start = c.start ∧ slot.stop = c.stop ∧ slot.available = c.available :=
  mem_suggestOptimalTimes h

/-- Witness for C10: the past Monday 09:00 suggestion of the tiny-window
scenario is score-free and matches a conflict-filtered candidate. -/
theorem c10_suggest_strips_score_witness :
    (⟨monday0 + mins 540, monday0 + mins 555, true, none⟩ : TimeSlot).score = none ∧
    ∃ c ∈ findAvailableSlots 20 [] 15
        ⟨nowMonday10, nowMonday10 + 14 * msPerDay⟩ (some prefsTinyWindow),
      (⟨monday0 + mins 540, monday0 + mins 555, true, none⟩ : TimeSlot).start = c.start ∧
      (⟨monday0 + mins 540, monday0 + mins 555, true, none⟩ : TimeSlot).stop = c.stop ∧
      (⟨monday0 + mins 540, monday0 + mins 555, true, none⟩ : TimeSlot).available =
        c.available :=
  c10_suggest_strips_score 20 [] nowMonday10 15 (some prefsTinyWindow)
    ⟨monday0 + mins 540, monday0 + mins 555, true, none⟩ (by decide)
